import Mathlib

/-!
# Verification of the zadig OPA policy-bundle compiler

Shallow embedding of `pkg/microservice/policy/core/service/bundle` (the
bundle compiler in `src/unnamed/part_002`), the HTTP handler
`pkg/microservice/policy/core/handler/bundle.go`, and the parts of the
repository they depend on.

Modelling conventions:
* Go strings are Lean `String`s; Go's byte-lexicographic string comparison
  is modelled by codepoint-lexicographic comparison of `String.data`
  (UTF-8 byte order coincides with codepoint order), written `strLt`/`strLe`.
* `sort.Sort` (an unstable comparison sort) is modelled by
  `List.insertionSort` over the non-strict relation induced by each Go
  `Less` method: any correct comparison sort produces a sorted permutation
  of its input, and every statement proved below either depends only on
  that specification, or is evaluated at inputs where Go's algorithm
  (which runs plain insertion sort on short slices) makes the same
  tie-ordering choices as `List.insertionSort`.
* Go slices are Lean lists.  A `nil` Go slice is the empty list; the
  compiler only ever builds slices by `append` starting from `nil`, so a
  slice is `nil` exactly when it is empty (this matters for JSON
  serialization, where a nil slice marshals as `null`).
-/

namespace ZadigBundle

/-- Go `a < b` on strings: lexicographic on the character sequence. -/
def strLt (a b : String) : Prop := a.data < b.data

/-- Go `a <= b` on strings (the non-strict closure used to state sortedness). -/
def strLe (a b : String) : Prop := a.data ≤ b.data

instance : DecidableRel strLt := fun a b => inferInstanceAs (Decidable (a.data < b.data))

instance : DecidableRel strLe := fun a b => inferInstanceAs (Decidable (a.data ≤ b.data))

/-! ## HTTP method constants (src/unnamed/part_002, lines 43-51) -/

def MethodGet : String := "GET"

def MethodPost : String := "POST"

def MethodPut : String := "PUT"

def MethodPatch : String := "PATCH"

def MethodDelete : String := "DELETE"

/-- `var AllMethods = []string{MethodGet, MethodPost, MethodPut, MethodPatch, MethodDelete}` -/
def AllMethods : List String := [MethodGet, MethodPost, MethodPut, MethodPatch, MethodDelete]

/-! ## The repository's `models` package.

The `models` package itself is not under `src/`; the shapes below are the
ones the compiler code in `src/unnamed/part_002` reads (`Role.Name`,
`Role.Namespace`, `Role.Rules`, `Rule.Kind`, `Rule.Resources`,
`Rule.Verbs`, `RoleBinding.Subjects`, `Subject.Kind`, `Subject.UID`,
`RoleBinding.Namespace`, `RoleBinding.RoleRef`), matching the spec's data
model (§3).  The constants `MethodAll`, `KindResource` and `UserKind` are
only ever compared with `==`, so their concrete values are irrelevant;
distinct strings are chosen.  In the repository `Role.Rules` is a slice of
pointers (`[]*Rule`), so an assignment through the loop variable in
`generateOPARoles` mutates the stored rule; the embedding makes that
explicit by returning the post-call state of the roles. -/

namespace models

def MethodAll : String := "*"

def KindResource : String := "resource"

def KindEndpoint : String := "endpoint"

def UserKind : String := "user"

structure Rule where
  Kind : String
  Resources : List String
  Verbs : List String
deriving DecidableEq

structure Role where
  Name : String
  Namespace : String
  Rules : List Rule
deriving DecidableEq

structure Subject where
  Kind : String
  UID : String
deriving DecidableEq

structure RoleRef where
  Name : String
  Namespace : String
deriving DecidableEq

structure RoleBinding where
  Namespace : String
  Subjects : List Subject
  RoleRef : RoleRef
deriving DecidableEq

/-- Modelled from the spec: `models.Policy` is not under `src/`.  Per §3 a
Policy holds a resource name and `rules[](verb, endpoints[])`, "declares
which concrete rules exist for a resource". -/
structure PolicyRule where
  Verb : String
  Endpoints : List String
deriving DecidableEq

/-- Modelled from the spec: see `models.PolicyRule`. -/
structure Policy where
  Resource : String
  Rules : List PolicyRule
deriving DecidableEq

end models

/-! ## Compiled output types (src/unnamed/part_002, lines 55-99) -/

structure rule where
  Method : String
  Endpoint : String
deriving DecidableEq

structure role where
  Name : String
  Namespace : String
  Rules : List rule
deriving DecidableEq

structure roleRef where
  Name : String
  Namespace : String
deriving DecidableEq

structure binding where
  Namespace : String
  RoleRefs : List roleRef
deriving DecidableEq

structure roleBinding where
  UID : String
  Bindings : List binding
deriving DecidableEq

structure opaRoles where
  Roles : List role
deriving DecidableEq

structure opaRoleBindings where
  RoleBindings : List roleBinding
deriving DecidableEq

structure opaManifest where
  Revision : String
  Roots : List String
deriving DecidableEq

structure exemptionURLs where
  Public : List rule
  Privileged : List rule
  Registered : List rule
deriving DecidableEq

/-! ## The comparison relations of the five `sort.Interface` wrappers
(src/unnamed/part_002, lines 140-187).  Each Go `Less` is strict; sortedness
wrt `Less` is being pairwise related by its non-strict closure, which is
what each `LE` relation below is. -/

/-- Non-strict closure of `rules.Less`: by endpoint, then by method. -/
def ruleLE (a b : rule) : Prop :=
  strLt a.Endpoint b.Endpoint ∨ (a.Endpoint = b.Endpoint ∧ strLe a.Method b.Method)

/-- Non-strict closure of `roles.Less`: by namespace, then by name. -/
def roleLE (a b : role) : Prop :=
  strLt a.Namespace b.Namespace ∨ (a.Namespace = b.Namespace ∧ strLe a.Name b.Name)

/-- Non-strict closure of `bindings.Less`: by namespace only. -/
def bindingLE (a b : binding) : Prop := strLe a.Namespace b.Namespace

/-- Non-strict closure of `roleRefs.Less`: by namespace, then by name. -/
def roleRefLE (a b : roleRef) : Prop :=
  strLt a.Namespace b.Namespace ∨ (a.Namespace = b.Namespace ∧ strLe a.Name b.Name)

/-- Non-strict closure of `roleBindings.Less`: by UID only. -/
def roleBindingLE (a b : roleBinding) : Prop := strLe a.UID b.UID

instance : DecidableRel ruleLE := fun a b =>
  inferInstanceAs (Decidable (_ ∨ (_ ∧ _)))

instance : DecidableRel roleLE := fun a b =>
  inferInstanceAs (Decidable (_ ∨ (_ ∧ _)))

instance : DecidableRel bindingLE := fun a b =>
  inferInstanceAs (Decidable (strLe _ _))

instance : DecidableRel roleRefLE := fun a b =>
  inferInstanceAs (Decidable (_ ∨ (_ ∧ _)))

instance : DecidableRel roleBindingLE := fun a b =>
  inferInstanceAs (Decidable (strLe _ _))

instance : IsTotal rule ruleLE := by
  constructor
  intro a b
  simp only [ruleLE, strLt, strLe]
  rcases lt_trichotomy a.Endpoint.data b.Endpoint.data with h | h | h
  · exact Or.inl (Or.inl h)
  · rcases le_total a.Method.data b.Method.data with h' | h'
    · exact Or.inl (Or.inr ⟨String.ext h, h'⟩)
    · exact Or.inr (Or.inr ⟨(String.ext h).symm, h'⟩)
  · exact Or.inr (Or.inl h)

instance : IsTrans rule ruleLE := by
  constructor
  intro a b c h₁ h₂
  simp only [ruleLE, strLt, strLe] at h₁ h₂ ⊢
  rcases h₁ with h₁ | ⟨e₁, l₁⟩ <;> rcases h₂ with h₂ | ⟨e₂, l₂⟩
  · exact Or.inl (lt_trans h₁ h₂)
  · exact Or.inl (e₂ ▸ h₁)
  · exact Or.inl (e₁ ▸ h₂)
  · exact Or.inr ⟨e₁.trans e₂, le_trans l₁ l₂⟩

instance : IsAntisymm rule ruleLE := by
  constructor
  intro a b h₁ h₂
  simp only [ruleLE, strLt, strLe] at h₁ h₂
  rcases h₁ with h₁ | ⟨e₁, l₁⟩ <;> rcases h₂ with h₂ | ⟨e₂, l₂⟩
  · exact absurd (lt_trans h₁ h₂) (lt_irrefl _)
  · exact absurd (e₂ ▸ h₁) (lt_irrefl _)
  · exact absurd (e₁ ▸ h₂) (lt_irrefl _)
  · have hm : a.Method = b.Method := String.ext (le_antisymm l₁ l₂)
    exact (by rw [hm, e₁] : rule.mk a.Method a.Endpoint = rule.mk b.Method b.Endpoint)

instance : IsTotal role roleLE := by
  constructor
  intro a b
  simp only [roleLE, strLt, strLe]
  rcases lt_trichotomy a.Namespace.data b.Namespace.data with h | h | h
  · exact Or.inl (Or.inl h)
  · rcases le_total a.Name.data b.Name.data with h' | h'
    · exact Or.inl (Or.inr ⟨String.ext h, h'⟩)
    · exact Or.inr (Or.inr ⟨(String.ext h).symm, h'⟩)
  · exact Or.inr (Or.inl h)

instance : IsTrans role roleLE := by
  constructor
  intro a b c h₁ h₂
  simp only [roleLE, strLt, strLe] at h₁ h₂ ⊢
  rcases h₁ with h₁ | ⟨e₁, l₁⟩ <;> rcases h₂ with h₂ | ⟨e₂, l₂⟩
  · exact Or.inl (lt_trans h₁ h₂)
  · exact Or.inl (e₂ ▸ h₁)
  · exact Or.inl (e₁ ▸ h₂)
  · exact Or.inr ⟨e₁.trans e₂, le_trans l₁ l₂⟩

instance : IsTotal roleRef roleRefLE := by
  constructor
  intro a b
  simp only [roleRefLE, strLt, strLe]
  rcases lt_trichotomy a.Namespace.data b.Namespace.data with h | h | h
  · exact Or.inl (Or.inl h)
  · rcases le_total a.Name.data b.Name.data with h' | h'
    · exact Or.inl (Or.inr ⟨String.ext h, h'⟩)
    · exact Or.inr (Or.inr ⟨(String.ext h).symm, h'⟩)
  · exact Or.inr (Or.inl h)

instance : IsTrans roleRef roleRefLE := by
  constructor
  intro a b c h₁ h₂
  simp only [roleRefLE, strLt, strLe] at h₁ h₂ ⊢
  rcases h₁ with h₁ | ⟨e₁, l₁⟩ <;> rcases h₂ with h₂ | ⟨e₂, l₂⟩
  · exact Or.inl (lt_trans h₁ h₂)
  · exact Or.inl (e₂ ▸ h₁)
  · exact Or.inl (e₁ ▸ h₂)
  · exact Or.inr ⟨e₁.trans e₂, le_trans l₁ l₂⟩

instance : IsAntisymm roleRef roleRefLE := by
  constructor
  intro a b h₁ h₂
  simp only [roleRefLE, strLt, strLe] at h₁ h₂
  rcases h₁ with h₁ | ⟨e₁, l₁⟩ <;> rcases h₂ with h₂ | ⟨e₂, l₂⟩
  · exact absurd (lt_trans h₁ h₂) (lt_irrefl _)
  · exact absurd (e₂ ▸ h₁) (lt_irrefl _)
  · exact absurd (e₁ ▸ h₂) (lt_irrefl _)
  · have hm : a.Name = b.Name := String.ext (le_antisymm l₁ l₂)
    exact (by rw [hm, e₁] : roleRef.mk a.Name a.Namespace = roleRef.mk b.Name b.Namespace)

instance : IsTotal binding bindingLE := by
  constructor
  intro a b
  simp only [bindingLE, strLe]
  exact le_total _ _

instance : IsTrans binding bindingLE := by
  constructor
  intro a b c h₁ h₂
  simp only [bindingLE, strLe] at h₁ h₂ ⊢
  exact le_trans h₁ h₂

instance : IsTotal roleBinding roleBindingLE := by
  constructor
  intro a b
  simp only [roleBindingLE, strLe]
  exact le_total _ _

instance : IsTrans roleBinding roleBindingLE := by
  constructor
  intro a b c h₁ h₂
  simp only [roleBindingLE, strLe] at h₁ h₂ ⊢
  exact le_trans h₁ h₂

/-! ## `sort.Sort` at each call site -/

def sortRules (l : List rule) : List rule := List.insertionSort ruleLE l

def sortRoles (l : List role) : List role := List.insertionSort roleLE l

def sortBindings (l : List binding) : List binding := List.insertionSort bindingLE l

def sortRoleRefs (l : List roleRef) : List roleRef := List.insertionSort roleRefLE l

def sortRoleBindings (l : List roleBinding) : List roleBinding :=
  List.insertionSort roleBindingLE l

/-! ## The rule-expansion table.

`getResourceActionMappings` is not under `src/`.  Modelled from the spec:
§4.1 "built from the full Policy list; for a given resource name and a set
of requested verbs, returns the concrete (method, endpoint) pairs
registered under that resource for those verbs.  ...  a Role referencing an
unmapped resource contributes zero rules for that reference (no error)".
The table groups, per resource and per verb, the pairs contributed by each
policy in policy-list order; the method of a pair is derived from the
registering rule's verb (§3 gives a policy rule as `(verb, endpoints[])`). -/

/-- One lookup of the rule-expansion table at `(res, verb)`. -/
def tableLookup (policies : List models.Policy) (res verb : String) : List rule :=
  policies.flatMap fun p =>
    if p.Resource = res then
      p.Rules.flatMap fun pr =>
        if pr.Verb = verb then pr.Endpoints.map fun e => ⟨verb, e⟩ else []
    else []

/-- Modelled from the spec: `resourceMappings.GetRules(res, verbs)` — the
pairs registered under `res` for the requested verbs, in verb order. -/
def GetRules (policies : List models.Policy) (res : String) (verbs : List String) :
    List rule :=
  verbs.flatMap (tableLookup policies res)

/-- Every `(method, endpoint)` pair known to the rule-expansion table, in
policy order (`generateOPAExemptionURLs` iterates the whole table; Go map
iteration order is arbitrary, which the final `sort.Sort` makes
irrelevant). -/
def allTablePairs (policies : List models.Policy) : List rule :=
  policies.flatMap fun p =>
    p.Rules.flatMap fun pr => pr.Endpoints.map fun e => ⟨pr.Verb, e⟩

/-! ## generateOPARoles (src/unnamed/part_002, lines 189-220) -/

/-- The body of the inner loop of `generateOPARoles` for one stored rule:
the emitted compiled rules, and the state of the stored rule after the
iteration (the `r.Verbs = AllMethods` assignment on line 202 writes
through the rule pointer). -/
def processRule (policies : List models.Policy) (r : models.Rule) :
    List rule × models.Rule :=
  if r.Kind = models.KindResource then
    (r.Resources.flatMap fun res => GetRules policies res r.Verbs, r)
  else
    let verbs := if r.Verbs = [models.MethodAll] then AllMethods else r.Verbs
    (verbs.flatMap fun v => r.Resources.map fun endpoint => ⟨v, endpoint⟩,
      { r with Verbs := verbs })

/-- The body of the outer loop of `generateOPARoles` for one stored role. -/
def compileRole (policies : List models.Policy) (ro : models.Role) : role :=
  ⟨ro.Name, ro.Namespace, sortRules (ro.Rules.flatMap fun r => (processRule policies r).1)⟩

/-- `generateOPARoles`.  Returns the compiled output together with the
post-call state of the stored roles (which the Go code reaches through
`[]*Rule` pointers and can mutate on line 202). -/
def generateOPARoles (roles : List models.Role) (policies : List models.Policy) :
    opaRoles × List models.Role :=
  (⟨sortRoles (roles.map (compileRole policies))⟩,
    roles.map fun ro => { ro with Rules := ro.Rules.map fun r => (processRule policies r).2 })

/-! ## generateOPARoleBindings (src/unnamed/part_002, lines 222-251).

The Go code accumulates `userRoleMap map[string]map[string][]*roleRef` and
then iterates it.  The maps are modelled as association lists in key
insertion order.  Go map iteration order is arbitrary, but both levels of
the output are sorted by their (distinct) map keys before being emitted,
so any iteration order produces the same output; the model fixes insertion
order. -/

/-- The inner `map[string][]*roleRef` of `userRoleMap`. -/
abbrev NsMap : Type := List (String × List roleRef)

/-- `userRoleMap`. -/
abbrev UserMap : Type := List (String × NsMap)

/-- `userRoleMap[uid][ns] = append(userRoleMap[uid][ns], ref)` on the inner map. -/
def nsInsert (m : NsMap) (ns : String) (ref : roleRef) : NsMap :=
  match m with
  | [] => [(ns, [ref])]
  | (n, refs) :: rest =>
    if n = ns then (n, refs ++ [ref]) :: rest else (n, refs) :: nsInsert rest ns ref

/-- One `userRoleMap[s.UID][rb.Namespace] = append(..., ref)` update
(creating the inner map first when absent, lines 230-233). -/
def userInsert (m : UserMap) (uid ns : String) (ref : roleRef) : UserMap :=
  match m with
  | [] => [(uid, nsInsert [] ns ref)]
  | (u, nm) :: rest =>
    if u = uid then (u, nsInsert nm ns ref) :: rest else (u, nm) :: userInsert rest uid ns ref

/-- The subject loop of `generateOPARoleBindings` for one binding
(lines 228-235): only subjects of kind `UserKind` insert a role ref. -/
def processBinding (rb : models.RoleBinding) (m : UserMap) : UserMap :=
  rb.Subjects.foldl
    (fun m s =>
      if s.Kind = models.UserKind then
        userInsert m s.UID rb.Namespace ⟨rb.RoleRef.Name, rb.RoleRef.Namespace⟩
      else m)
    m

/-- The accumulation loop over all bindings (lines 227-236). -/
def buildUserRoleMap (rbs : List models.RoleBinding) : UserMap :=
  rbs.foldl (fun m rb => processBinding rb m) []

/-- `generateOPARoleBindings` (lines 222-251): emit the map contents with
role refs sorted by (namespace, name), namespace groups sorted by
namespace, and the UID entries sorted by UID. -/
def generateOPARoleBindings (rbs : List models.RoleBinding) : opaRoleBindings :=
  ⟨sortRoleBindings ((buildUserRoleMap rbs).map fun e =>
    ⟨e.1, sortBindings (e.2.map fun i => ⟨i.1, sortRoleRefs i.2⟩)⟩)⟩

/-! ## generateOPAExemptionURLs (src/unnamed/part_002, lines 253-302).

The static URL classification tables `publicURLs`, `systemAdminURLs` and
`adminURLs` are package-level data not under `src/`; they are taken as
parameters here.  Each entry carries a method list and an endpoint list
(the code reads `r.Methods` and `r.Endpoints`). -/

structure urlRule where
  Methods : List String
  Endpoints : List String
deriving DecidableEq

/-- The per-entry loop body shared by the three table loops: replace a
method list that is exactly `["*"]` by `AllMethods` (the code assigns
`r.Methods = AllMethods` in place), then emit the method x endpoint cross
product. -/
def expandURLRule (r : urlRule) : List rule :=
  let ms := if r.Methods = [models.MethodAll] then AllMethods else r.Methods
  ms.flatMap fun method => r.Endpoints.map fun endpoint => ⟨method, endpoint⟩

/-- `generateOPAExemptionURLs`: Public from `publicURLs`, Privileged from
`systemAdminURLs`, Registered from every pair of the rule-expansion table
followed by `adminURLs`; each list sorted by (endpoint, method). -/
def generateOPAExemptionURLs (publicURLs systemAdminURLs adminURLs : List urlRule)
    (policies : List models.Policy) : exemptionURLs :=
  { Public := sortRules (publicURLs.flatMap expandURLRule)
    Privileged := sortRules (systemAdminURLs.flatMap expandURLRule)
    Registered := sortRules (allTablePairs policies ++ adminURLs.flatMap expandURLRule) }

/-! ## The bundle store: opaData.save, GenerateOPABundle, GetRevision
(src/unnamed/part_002, lines 35-41, 94-138, 304-357) and the handler
DownloadBundle (src/pkg/microservice/policy/core/handler/bundle.go).

File contents are modelled symbolically: a written file holds the value it
was serialized from (`json.MarshalIndent` is deterministic and injective,
so equality of contents is equality of bytes).  `GetRevision` parses
`.manifest`; content that is not a marshalled manifest yields the empty
revision (the rego source is not JSON, and unmarshalling one of the data
files into a manifest leaves its `Revision` field at the zero value `""`). -/

def manifestPath : String := ".manifest"

def policyPath : String := "authz.rego"

def rolesPath : String := "roles/data.json"

def rolebindingsPath : String := "bindings/data.json"

def exemptionPath : String := "exemptions/data.json"

inductive FileContent where
  | manifestFile (m : opaManifest)
  | bytesFile (s : String)
  | rolesFile (d : opaRoles)
  | bindingsFile (d : opaRoleBindings)
  | exemptionsFile (d : exemptionURLs)
deriving DecidableEq

/-- The `interface{}` payload of an `opaDataSpec` as built by
`GenerateOPABundle`. -/
inductive opaValue where
  | bytes (content : String)
  | manifest (m : opaManifest)
  | roles (d : opaRoles)
  | roleBindings (d : opaRoleBindings)
  | exemptions (d : exemptionURLs)
deriving DecidableEq

structure opaDataSpec where
  data : opaValue
  path : String
deriving DecidableEq

/-- The in-memory file system `cacheFS` contents: path to content. -/
abbrev Fs : Type := List (String × FileContent)

def writeFile (fs : Fs) (path : String) (c : FileContent) : Fs :=
  match fs with
  | [] => [(path, c)]
  | (p, c') :: rest => if p = path then (p, c) :: rest else (p, c') :: writeFile rest path c

def readFile? (fs : Fs) (path : String) : Option FileContent :=
  match fs with
  | [] => none
  | (p, c) :: rest => if p = path then some c else readFile? rest path

/-- Successful `json.MarshalIndent` output for a non-`[]byte` value. -/
def opaValue.marshal : opaValue → FileContent
  | .bytes s => .bytesFile s
  | .manifest m => .manifestFile m
  | .roles d => .rolesFile d
  | .roleBindings d => .bindingsFile d
  | .exemptions d => .exemptionsFile d

/-- The process-wide mutable state: the package-level `cacheFS` (nil until
the first save) and the archived tarball at
`filepath.Join(config.DataPath(), "bundle.tar.gz")`. -/
structure BundleState where
  cacheFS : Option Fs
  tarball : Option Fs
deriving DecidableEq

/-- The file-writing loop of `opaData.save` (lines 105-128): marshal each
entry (the `[]byte` case is written as-is, skipping marshalling) and write
it into the fresh in-memory fs; the first failure aborts with the files
written so far.  `marshalOk` says which values `json.MarshalIndent`
succeeds on (its failures depend on the runtime value, outside this
code's control).  `MkdirAll`/`WriteFile` on the in-memory fs do not fail. -/
def writeFiles (marshalOk : opaValue → Bool) :
    List opaDataSpec → Fs → Option String × Fs
  | [], fs => (none, fs)
  | file :: rest, fs =>
    match file.data with
    | .bytes content => writeFiles marshalOk rest (writeFile fs file.path (.bytesFile content))
    | v =>
      if marshalOk v then writeFiles marshalOk rest (writeFile fs file.path v.marshal)
      else (some ("Failed to marshal file " ++ file.path), fs)

/-- `opaData.save` (lines 101-138).  The assignment
`cacheFS = afero.NewMemMapFs()` on line 104 replaces the published
in-memory fs BEFORE any file is written, so every exit - including the
error exits - leaves the fresh, possibly partially written fs as the one
readers observe.  The tarball on disk is only replaced when `fsutil.Tar`
succeeds (`tarOk`); on failure the function returns the error. -/
def save (marshalOk : opaValue → Bool) (tarOk : Bool) (o : List opaDataSpec)
    (st : BundleState) : Option String × BundleState :=
  match writeFiles marshalOk o [] with
  | (some e, fs) => (some e, { st with cacheFS := some fs })
  | (none, fs) =>
    if tarOk then (none, { cacheFS := some fs, tarball := some fs })
    else (some "Failed to archive tarball", { st with cacheFS := some fs })

/-- `GenerateOPABundle` (lines 315-341).  The store lists are parameters
(each `List()` may fail independently, in which case the code logs and
passes the nil slice on); `revision` is the fresh random token from
`uuid.New().String()`; `authz` is the embedded rego source. -/
def GenerateOPABundle (rs : List models.Role) (bs : List models.RoleBinding)
    (ps : List models.Policy) (publicURLs systemAdminURLs adminURLs : List urlRule)
    (authz : String) (revision : String) (marshalOk : opaValue → Bool) (tarOk : Bool)
    (st : BundleState) : Option String × BundleState :=
  let data : List opaDataSpec :=
    [⟨.manifest ⟨revision, [""]⟩, manifestPath⟩,
     ⟨.bytes authz, policyPath⟩,
     ⟨.roles (generateOPARoles rs ps).1, rolesPath⟩,
     ⟨.roleBindings (generateOPARoleBindings bs), rolebindingsPath⟩,
     ⟨.exemptions (generateOPAExemptionURLs publicURLs systemAdminURLs adminURLs ps),
       exemptionPath⟩]
  save marshalOk tarOk data st

/-- `GetRevision` (lines 343-357): read `.manifest` from the published
`cacheFS`; on read failure (nil fs or missing file) or unmarshal failure
return `""`. -/
def GetRevision (st : BundleState) : String :=
  match st.cacheFS with
  | none => ""
  | some fs =>
    match readFile? fs manifestPath with
    | none => ""
    | some (.manifestFile m) => m.Revision
    | some _ => ""

/-- The response assembled by the gin handler. -/
structure Response where
  status : Nat
  contentType : Option String
  etag : Option String
  bodyServed : Bool
deriving DecidableEq

/-- `DownloadBundle` (handler/bundle.go, lines 28-41): 304 with no body
when the revision is nonempty and equals `If-None-Match`; otherwise 200,
`Content-Type: application/gzip`, `Etag` only when the revision is
nonempty, and the archive file is streamed. -/
def DownloadBundle (st : BundleState) (ifNoneMatch : String) : Response :=
  let revision := GetRevision st
  if revision ≠ "" ∧ revision = ifNoneMatch then
    ⟨304, none, none, false⟩
  else
    ⟨200, some "application/gzip", if revision ≠ "" then some revision else none, true⟩

/-! ## Serialization (`json.MarshalIndent(v, "", "    ")`).

Struct fields render in declaration order under their json tags; a nil
slice renders as `null` (and the compiler only produces nil slices for
empty collections, see the header note); four spaces of indentation per
level.  Escaping of special characters inside strings is not modelled (no
string handled below needs any).  The json tags of the `exemptionURLs`
struct are not under `src/`; they are modelled from the spec's file layout
(§6): `public`, `privileged`, `registered`. -/

def lbr : String := "\x7b"

def rbr : String := "\x7d"

def jstr (s : String) : String := "\"" ++ s ++ "\""

/-- A JSON array whose closing bracket sits at indent `ind`; `items` are
already rendered at indent `ind ++ "    "`. -/
def jarr (ind : String) (items : List String) : String :=
  match items with
  | [] => "null"
  | _ => "[\n" ++ String.intercalate ",\n" (items.map fun it => ind ++ "    " ++ it)
      ++ "\n" ++ ind ++ "]"

/-- A JSON object whose closing brace sits at indent `ind`. -/
def jobj (ind : String) (fields : List (String × String)) : String :=
  lbr ++ "\n"
    ++ String.intercalate ",\n" (fields.map fun f => ind ++ "    " ++ jstr f.1 ++ ": " ++ f.2)
    ++ "\n" ++ ind ++ rbr

def rule.json (ind : String) (r : rule) : String :=
  jobj ind [("method", jstr r.Method), ("endpoint", jstr r.Endpoint)]

def rulesJson (ind : String) (l : List rule) : String :=
  jarr ind (l.map (rule.json (ind ++ "    ")))

def role.json (ind : String) (ro : role) : String :=
  jobj ind [("name", jstr ro.Name), ("namespace", jstr ro.Namespace),
    ("rules", rulesJson (ind ++ "    ") ro.Rules)]

def roleRef.json (ind : String) (r : roleRef) : String :=
  jobj ind [("name", jstr r.Name), ("namespace", jstr r.Namespace)]

def binding.json (ind : String) (b : binding) : String :=
  jobj ind [("namespace", jstr b.Namespace),
    ("role_refs", jarr (ind ++ "    ") (b.RoleRefs.map (roleRef.json (ind ++ "        "))))]

def roleBinding.json (ind : String) (rb : roleBinding) : String :=
  jobj ind [("uid", jstr rb.UID),
    ("bindings", jarr (ind ++ "    ") (rb.Bindings.map (binding.json (ind ++ "        "))))]

/-- The bytes of `roles/data.json`. -/
def serializeOpaRoles (d : opaRoles) : String :=
  jobj "" [("roles", jarr "    " (d.Roles.map (role.json "        ")))]

/-- The bytes of `bindings/data.json`. -/
def serializeOpaRoleBindings (d : opaRoleBindings) : String :=
  jobj "" [("role_bindings", jarr "    " (d.RoleBindings.map (roleBinding.json "        ")))]

/-- The bytes of `exemptions/data.json`. -/
def serializeExemptionURLs (e : exemptionURLs) : String :=
  jobj "" [("public", rulesJson "    " e.Public),
    ("privileged", rulesJson "    " e.Privileged),
    ("registered", rulesJson "    " e.Registered)]

/-! ## Analysis functions for the user-role-map accumulation.

These are not part of the embedded program; they name the quantities the
correctness proofs about `generateOPARoleBindings` track: association-list
lookups, the key lists of both map levels, and the extensional description
of the accumulated contents in terms of the input binding list. -/

/-- Association-list lookup (first entry with the given key). -/
def alookup {β : Type} (m : List (String × β)) (k : String) : Option β :=
  match m with
  | [] => none
  | (k', v) :: rest => if k' = k then some v else alookup rest k

/-- The key list of an association list, in entry order. -/
def keysOf {β : Type} (m : List (String × β)) : List String := m.map fun e => e.1

/-- The role refs accumulated under `(uid, ns)`. -/
def lookupRefs (m : UserMap) (uid ns : String) : List roleRef :=
  (alookup ((alookup m uid).getD []) ns).getD []

/-- The namespaces present in the inner map of `uid`. -/
def nsKeysOf (m : UserMap) (uid : String) : List String :=
  keysOf ((alookup m uid).getD [])

/-- The role refs that the binding list contributes to `(uid, ns)`: one
copy of the binding's roleRef per subject of kind User with that UID, for
each binding in namespace `ns`, in binding-list order. -/
def refsFor (rbs : List models.RoleBinding) (uid ns : String) : List roleRef :=
  rbs.flatMap fun rb =>
    if rb.Namespace = ns then
      (rb.Subjects.filter fun s => s.Kind == models.UserKind && s.UID == uid).map
        fun _ => ⟨rb.RoleRef.Name, rb.RoleRef.Namespace⟩
    else []

/-- The UIDs of all User-kind subjects across the binding list. -/
def userUIDs (rbs : List models.RoleBinding) : List String :=
  rbs.flatMap fun rb =>
    (rb.Subjects.filter fun s => s.Kind == models.UserKind).map fun s => s.UID

/-- The namespaces of the bindings that charge `uid`. -/
def nsListFor (rbs : List models.RoleBinding) (uid : String) : List String :=
  rbs.flatMap fun rb =>
    if rb.Subjects.any fun s => s.Kind == models.UserKind && s.UID == uid then
      [rb.Namespace]
    else []

/-- Strict lexicographic order on (namespace, name)-style key pairs. -/
def pairLt (x y : String × String) : Prop :=
  strLt x.1 y.1 ∨ (x.1 = y.1 ∧ strLt x.2 y.2)

/-! ## Basic facts about the string order -/

theorem strLe_total (a b : String) : strLe a b ∨ strLe b a := le_total a.data b.data

theorem strLe_trans {a b c : String} (h₁ : strLe a b) (h₂ : strLe b c) : strLe a c :=
  le_trans h₁ h₂

theorem strLe_antisymm {a b : String} (h₁ : strLe a b) (h₂ : strLe b a) : a = b :=
  String.ext (le_antisymm h₁ h₂)

theorem strLt_of_strLe_of_ne {a b : String} (h : strLe a b) (hne : a ≠ b) : strLt a b :=
  lt_of_le_of_ne h (fun hd => hne (String.ext hd))

theorem strLt_asymm {a b : String} (h₁ : strLt a b) (h₂ : strLt b a) : False :=
  absurd h₂ (not_lt_of_gt h₁)

theorem strLe_of_strLt {a b : String} (h : strLt a b) : strLe a b := le_of_lt h

theorem strLt_irrefl (a : String) : ¬ strLt a a := lt_irrefl a.data

/-! ## Sort determinism infrastructure.

Two facts drive every permutation-invariance statement below:
* a sort by a total, transitive, antisymmetric relation sends
  permutation-equal lists to the same list;
* a sort by a total, transitive relation whose ties are confined to
  elements with equal keys sends permutation-equal lists with duplicate-free
  keys to the same list. -/

theorem sort_eq_of_perm {α : Type} (r : α → α → Prop) [DecidableRel r] [IsTotal α r]
    [IsTrans α r] [IsAntisymm α r] {l₁ l₂ : List α} (hp : l₁.Perm l₂) :
    List.insertionSort r l₁ = List.insertionSort r l₂ :=
  List.eq_of_perm_of_sorted
    ((List.perm_insertionSort r l₁).trans (hp.trans (List.perm_insertionSort r l₂).symm))
    (List.sorted_insertionSort r l₁) (List.sorted_insertionSort r l₂)

theorem sorted_strict_of_nodup_keys {α κ : Type} (r : α → α → Prop) [DecidableRel r]
    [IsTotal α r] [IsTrans α r] (key : α → κ) (klt : κ → κ → Prop)
    (hstr : ∀ a b, r a b → key a ≠ key b → klt (key a) (key b))
    (l : List α) (hn : (l.map key).Nodup) :
    (List.insertionSort r l).Pairwise fun a b => klt (key a) (key b) := by
  have h1 : List.Sorted r (List.insertionSort r l) := List.sorted_insertionSort r l
  have h2 : ((List.insertionSort r l).map key).Nodup :=
    (((List.perm_insertionSort r l).map key).nodup_iff).mpr hn
  have h3 : (List.insertionSort r l).Pairwise fun a b => key a ≠ key b :=
    List.pairwise_map.mp h2
  exact (List.Pairwise.and h1 h3).imp fun h => hstr _ _ h.1 h.2

theorem sort_eq_of_perm_of_nodup_keys {α κ : Type} (r : α → α → Prop) [DecidableRel r]
    [IsTotal α r] [IsTrans α r] (key : α → κ) (klt : κ → κ → Prop)
    (hasymm : ∀ x y, klt x y → klt y x → False)
    (hstr : ∀ a b, r a b → key a ≠ key b → klt (key a) (key b))
    {l₁ l₂ : List α} (hp : l₁.Perm l₂) (hn : (l₁.map key).Nodup) :
    List.insertionSort r l₁ = List.insertionSort r l₂ := by
  haveI : IsAntisymm α (fun a b => klt (key a) (key b)) :=
    ⟨fun a b h₁ h₂ => (hasymm _ _ h₁ h₂).elim⟩
  have hn₂ : (l₂.map key).Nodup := ((hp.map key).nodup_iff).mp hn
  exact List.eq_of_perm_of_sorted
    (r := fun a b => klt (key a) (key b))
    ((List.perm_insertionSort r l₁).trans (hp.trans (List.perm_insertionSort r l₂).symm))
    (sorted_strict_of_nodup_keys r key klt hstr l₁ hn)
    (sorted_strict_of_nodup_keys r key klt hstr l₂ hn₂)

theorem pairLt_asymm (x y : String × String) (h₁ : pairLt x y) (h₂ : pairLt y x) : False := by
  rcases h₁ with h₁ | ⟨e₁, l₁⟩ <;> rcases h₂ with h₂ | ⟨e₂, l₂⟩
  · exact strLt_asymm h₁ h₂
  · exact strLt_irrefl _ (e₂ ▸ h₁)
  · exact strLt_irrefl _ (e₁ ▸ h₂)
  · exact strLt_asymm l₁ l₂

theorem flatMap_perm_congr {α β : Type} {l₁ l₂ : List α} {f g : α → List β}
    (hp : l₁.Perm l₂) (hfg : ∀ a ∈ l₁, (f a).Perm (g a)) :
    (l₁.flatMap f).Perm (l₂.flatMap g) :=
  (List.Perm.flatMap_left l₁ hfg).trans (hp.flatMap_right g)

/-! ## Permutation invariance of the role compiler -/

theorem tableLookup_perm {ps₁ ps₂ : List models.Policy} (hp : ps₁.Perm ps₂)
    (res verb : String) : (tableLookup ps₁ res verb).Perm (tableLookup ps₂ res verb) :=
  hp.flatMap_right _

theorem GetRules_perm {ps₁ ps₂ : List models.Policy} (hp : ps₁.Perm ps₂)
    (res : String) (verbs : List String) :
    (GetRules ps₁ res verbs).Perm (GetRules ps₂ res verbs) :=
  List.Perm.flatMap_left verbs fun v _ => tableLookup_perm hp res v

theorem allTablePairs_perm {ps₁ ps₂ : List models.Policy} (hp : ps₁.Perm ps₂) :
    (allTablePairs ps₁).Perm (allTablePairs ps₂) :=
  hp.flatMap_right _

theorem processRule_fst_perm {ps₁ ps₂ : List models.Policy} (hp : ps₁.Perm ps₂)
    (r : models.Rule) : (processRule ps₁ r).1.Perm (processRule ps₂ r).1 := by
  unfold processRule
  by_cases h : r.Kind = models.KindResource
  · simp only [if_pos h]
    exact List.Perm.flatMap_left _ fun res _ => GetRules_perm hp res r.Verbs
  · simp only [if_neg h]
    exact List.Perm.refl _

theorem compileRole_policies_perm {ps₁ ps₂ : List models.Policy} (hp : ps₁.Perm ps₂)
    (ro : models.Role) : compileRole ps₁ ro = compileRole ps₂ ro := by
  unfold compileRole
  have h : ((ro.Rules.flatMap fun r => (processRule ps₁ r).1)).Perm
      (ro.Rules.flatMap fun r => (processRule ps₂ r).1) :=
    List.Perm.flatMap_left _ fun r _ => processRule_fst_perm hp r
  simp only [role.mk.injEq, true_and]
  exact sort_eq_of_perm ruleLE h

/-- Key fact for C3 (roles side): under permutation of the role list and of
the policy list, with pairwise-distinct (namespace, name) role keys, the
compiled roles output is identical. -/
theorem generateOPARoles_fst_eq {rs₁ rs₂ : List models.Role}
    {ps₁ ps₂ : List models.Policy} (hr : rs₁.Perm rs₂) (hps : ps₁.Perm ps₂)
    (hn : (rs₁.map fun ro => (ro.Namespace, ro.Name)).Nodup) :
    (generateOPARoles rs₁ ps₁).1 = (generateOPARoles rs₂ ps₂).1 := by
  unfold generateOPARoles
  simp only [opaRoles.mk.injEq]
  have h1 : rs₁.map (compileRole ps₁) = rs₁.map (compileRole ps₂) :=
    List.map_congr_left fun ro _ => compileRole_policies_perm hps ro
  rw [h1]
  apply sort_eq_of_perm_of_nodup_keys roleLE (fun ro : role => (ro.Namespace, ro.Name))
    pairLt pairLt_asymm
  · intro a b hab hne
    rcases hab with h | ⟨e, l⟩
    · exact Or.inl h
    · refine Or.inr ⟨e, strLt_of_strLe_of_ne l fun hname => hne ?_⟩
      rw [show (a.Namespace, a.Name) = (b.Namespace, a.Name) from by rw [e],
        show a.Name = b.Name from hname]
  · exact hr.map _
  · simpa [List.map_map, Function.comp_def] using hn

/-! ## Permutation invariance of the exemption compiler -/

theorem generateOPAExemptionURLs_policies_perm {ps₁ ps₂ : List models.Policy}
    (hp : ps₁.Perm ps₂) (pubs syss admins : List urlRule) :
    generateOPAExemptionURLs pubs syss admins ps₁ =
      generateOPAExemptionURLs pubs syss admins ps₂ := by
  have hreg : sortRules (allTablePairs ps₁ ++ admins.flatMap expandURLRule) =
      sortRules (allTablePairs ps₂ ++ admins.flatMap expandURLRule) :=
    sort_eq_of_perm ruleLE ((allTablePairs_perm hp).append_right _)
  unfold generateOPAExemptionURLs
  rw [hreg]


/-! ## The user-role map: what one insertion does -/

theorem alookup_nsInsert (m : NsMap) (ns : String) (ref : roleRef) (ns' : String) :
    alookup (nsInsert m ns ref) ns' =
      if ns' = ns then some ((alookup m ns).getD [] ++ [ref]) else alookup m ns' := by
  induction m with
  | nil =>
    by_cases h : ns' = ns
    · simp [nsInsert, alookup, h]
    · simp [nsInsert, alookup, h, Ne.symm h]
  | cons hd tl ih =>
    obtain ⟨n, refs⟩ := hd
    by_cases h1 : n = ns
    · subst h1
      by_cases h2 : ns' = n
      · subst h2
        simp [nsInsert, alookup]
      · simp [nsInsert, alookup, h2, Ne.symm h2]
    · by_cases h2 : ns' = ns
      · subst h2
        simp [nsInsert, alookup, h1, h1, ih]
      · by_cases h3 : n = ns'
        · subst h3
          simp [nsInsert, alookup, h1, ih, h2]
        · simp [nsInsert, alookup, h1, h3, ih, h2]

theorem keysOf_cons {β : Type} (e : String × β) (m : List (String × β)) :
    keysOf (e :: m) = e.1 :: keysOf m := rfl

theorem keysOf_nsInsert (m : NsMap) (ns : String) (ref : roleRef) :
    keysOf (nsInsert m ns ref) =
      if ns ∈ keysOf m then keysOf m else keysOf m ++ [ns] := by
  induction m with
  | nil => simp [nsInsert, keysOf]
  | cons hd tl ih =>
    obtain ⟨n, refs⟩ := hd
    by_cases h : n = ns
    · subst h
      have hcond : n ∈ keysOf ((n, refs) :: tl) := by
        rw [keysOf_cons]
        exact List.mem_cons_self _ _
      rw [show nsInsert ((n, refs) :: tl) n ref = (n, refs ++ [ref]) :: tl from by
        simp [nsInsert]]
      rw [if_pos hcond, keysOf_cons, keysOf_cons]
    · have hne : ns ≠ n := Ne.symm h
      have hstep : nsInsert ((n, refs) :: tl) ns ref = (n, refs) :: nsInsert tl ns ref := by
        simp [nsInsert, h]
      by_cases h2 : ns ∈ keysOf tl
      · have hcond : ns ∈ keysOf ((n, refs) :: tl) := by
          rw [keysOf_cons]
          exact List.mem_cons_of_mem _ h2
        rw [hstep, keysOf_cons, if_pos hcond, ih, if_pos h2, keysOf_cons]
      · have hcond : ns ∉ keysOf ((n, refs) :: tl) := by
          rw [keysOf_cons, List.mem_cons]
          push_neg
          exact ⟨hne, h2⟩
        rw [hstep, keysOf_cons, if_neg hcond, ih, if_neg h2, keysOf_cons]
        exact (List.cons_append _ _ _).symm

theorem alookup_userInsert (m : UserMap) (uid ns : String) (ref : roleRef) (uid' : String) :
    alookup (userInsert m uid ns ref) uid' =
      if uid' = uid then some (nsInsert ((alookup m uid).getD []) ns ref)
      else alookup m uid' := by
  induction m with
  | nil =>
    by_cases h : uid' = uid
    · simp [userInsert, alookup, h]
    · simp [userInsert, alookup, h, Ne.symm h]
  | cons hd tl ih =>
    obtain ⟨u, nm⟩ := hd
    by_cases h1 : u = uid
    · subst h1
      by_cases h2 : uid' = u
      · subst h2
        simp [userInsert, alookup]
      · simp [userInsert, alookup, h2, Ne.symm h2]
    · by_cases h2 : uid' = uid
      · subst h2
        simp [userInsert, alookup, h1, h1, ih]
      · by_cases h3 : u = uid'
        · subst h3
          simp [userInsert, alookup, h1, ih, h2]
        · simp [userInsert, alookup, h1, h3, ih, h2]

theorem keysOf_userInsert (m : UserMap) (uid ns : String) (ref : roleRef) :
    keysOf (userInsert m uid ns ref) =
      if uid ∈ keysOf m then keysOf m else keysOf m ++ [uid] := by
  induction m with
  | nil => simp [userInsert, keysOf]
  | cons hd tl ih =>
    obtain ⟨u, nm⟩ := hd
    by_cases h : u = uid
    · subst h
      have hcond : u ∈ keysOf ((u, nm) :: tl) := by
        rw [keysOf_cons]
        exact List.mem_cons_self _ _
      rw [show userInsert ((u, nm) :: tl) u ns ref = (u, nsInsert nm ns ref) :: tl from by
        simp [userInsert]]
      rw [if_pos hcond, keysOf_cons, keysOf_cons]
    · have hne : uid ≠ u := Ne.symm h
      have hstep : userInsert ((u, nm) :: tl) uid ns ref =
          (u, nm) :: userInsert tl uid ns ref := by
        simp [userInsert, h]
      by_cases h2 : uid ∈ keysOf tl
      · have hcond : uid ∈ keysOf ((u, nm) :: tl) := by
          rw [keysOf_cons]
          exact List.mem_cons_of_mem _ h2
        rw [hstep, keysOf_cons, if_pos hcond, ih, if_pos h2, keysOf_cons]
      · have hcond : uid ∉ keysOf ((u, nm) :: tl) := by
          rw [keysOf_cons, List.mem_cons]
          push_neg
          exact ⟨hne, h2⟩
        rw [hstep, keysOf_cons, if_neg hcond, ih, if_neg h2, keysOf_cons]
        exact (List.cons_append _ _ _).symm

theorem lookupRefs_userInsert (m : UserMap) (uid ns : String) (ref : roleRef)
    (uid' ns' : String) :
    lookupRefs (userInsert m uid ns ref) uid' ns' =
      if uid' = uid ∧ ns' = ns then lookupRefs m uid' ns' ++ [ref]
      else lookupRefs m uid' ns' := by
  unfold lookupRefs
  by_cases h1 : uid' = uid
  · subst h1
    by_cases h2 : ns' = ns
    · subst h2
      simp [alookup_userInsert, alookup_nsInsert]
    · simp [alookup_userInsert, alookup_nsInsert, h2]
  · simp [alookup_userInsert, h1]

theorem nsKeysOf_userInsert (m : UserMap) (uid ns : String) (ref : roleRef)
    (uid' : String) :
    nsKeysOf (userInsert m uid ns ref) uid' =
      if uid' = uid then
        (if ns ∈ nsKeysOf m uid then nsKeysOf m uid else nsKeysOf m uid ++ [ns])
      else nsKeysOf m uid' := by
  by_cases h1 : uid' = uid
  · subst h1
    simp [nsKeysOf, alookup_userInsert, keysOf_nsInsert]
  · simp [nsKeysOf, alookup_userInsert, h1]

/-! ## The user-role map: what the accumulation loops produce -/

theorem lookupRefs_subjFold (rb : models.RoleBinding) (uid ns : String) :
    ∀ (ss : List models.Subject) (m : UserMap),
      lookupRefs
        (ss.foldl
          (fun m s =>
            if s.Kind = models.UserKind then
              userInsert m s.UID rb.Namespace ⟨rb.RoleRef.Name, rb.RoleRef.Namespace⟩
            else m)
          m) uid ns =
      lookupRefs m uid ns ++
        (if rb.Namespace = ns then
          ((ss.filter fun s => s.Kind == models.UserKind && s.UID == uid).map
            fun _ => (⟨rb.RoleRef.Name, rb.RoleRef.Namespace⟩ : roleRef))
        else []) := by
  intro ss
  induction ss with
  | nil =>
    intro m
    simp
  | cons s ss ih =>
    intro m
    rw [List.foldl_cons, ih]
    by_cases hk : s.Kind = models.UserKind
    · rw [if_pos hk, lookupRefs_userInsert]
      by_cases hu : uid = s.UID
      · by_cases hn : ns = rb.Namespace
        · rw [if_pos ⟨hu, hn⟩]
          simp [List.filter_cons, hk, hu.symm, hn.symm, List.append_assoc]
        · rw [if_neg fun hc => hn hc.2]
          simp [List.filter_cons, hk, Ne.symm hn]
      · rw [if_neg fun hc => hu hc.1]
        simp [List.filter_cons, hk, Ne.symm hu]
    · rw [if_neg hk]
      simp [List.filter_cons, hk]

theorem lookupRefs_processBinding (rb : models.RoleBinding) (m : UserMap)
    (uid ns : String) :
    lookupRefs (processBinding rb m) uid ns =
      lookupRefs m uid ns ++
        (if rb.Namespace = ns then
          ((rb.Subjects.filter fun s => s.Kind == models.UserKind && s.UID == uid).map
            fun _ => (⟨rb.RoleRef.Name, rb.RoleRef.Namespace⟩ : roleRef))
        else []) :=
  lookupRefs_subjFold rb uid ns rb.Subjects m

theorem lookupRefs_foldBindings (uid ns : String) :
    ∀ (rbs : List models.RoleBinding) (m : UserMap),
      lookupRefs (rbs.foldl (fun m rb => processBinding rb m) m) uid ns =
        lookupRefs m uid ns ++ refsFor rbs uid ns := by
  intro rbs
  induction rbs with
  | nil =>
    intro m
    simp [refsFor]
  | cons rb rbs ih =>
    intro m
    rw [List.foldl_cons, ih, lookupRefs_processBinding]
    rw [show refsFor (rb :: rbs) uid ns =
        (if rb.Namespace = ns then
          ((rb.Subjects.filter fun s => s.Kind == models.UserKind && s.UID == uid).map
            fun _ => (⟨rb.RoleRef.Name, rb.RoleRef.Namespace⟩ : roleRef))
        else []) ++ refsFor rbs uid ns from by simp [refsFor]]
    rw [List.append_assoc]

theorem lookupRefs_buildUserRoleMap (rbs : List models.RoleBinding) (uid ns : String) :
    lookupRefs (buildUserRoleMap rbs) uid ns = refsFor rbs uid ns := by
  have h := lookupRefs_foldBindings uid ns rbs []
  simpa [buildUserRoleMap, lookupRefs, alookup] using h

theorem mem_keysOf_userInsert (m : UserMap) (uid ns : String) (ref : roleRef)
    (u : String) :
    u ∈ keysOf (userInsert m uid ns ref) ↔ u ∈ keysOf m ∨ u = uid := by
  rw [keysOf_userInsert]
  by_cases h : uid ∈ keysOf m
  · rw [if_pos h]
    exact ⟨Or.inl, fun hc => hc.elim id fun he => he ▸ h⟩
  · rw [if_neg h]
    simp [List.mem_append]

theorem mem_keysOf_subjFold (rb : models.RoleBinding) (u : String) :
    ∀ (ss : List models.Subject) (m : UserMap),
      u ∈ keysOf
        (ss.foldl
          (fun m s =>
            if s.Kind = models.UserKind then
              userInsert m s.UID rb.Namespace ⟨rb.RoleRef.Name, rb.RoleRef.Namespace⟩
            else m)
          m) ↔
      u ∈ keysOf m ∨
        u ∈ (ss.filter fun s => s.Kind == models.UserKind).map fun s => s.UID := by
  intro ss
  induction ss with
  | nil =>
    intro m
    simp
  | cons s ss ih =>
    intro m
    rw [List.foldl_cons, ih]
    by_cases hk : s.Kind = models.UserKind
    · rw [if_pos hk]
      simp [mem_keysOf_userInsert, List.filter_cons, hk]
      tauto
    · rw [if_neg hk]
      simp [List.filter_cons, hk]

theorem mem_keysOf_foldBindings (u : String) :
    ∀ (rbs : List models.RoleBinding) (m : UserMap),
      u ∈ keysOf (rbs.foldl (fun m rb => processBinding rb m) m) ↔
        u ∈ keysOf m ∨ u ∈ userUIDs rbs := by
  intro rbs
  induction rbs with
  | nil =>
    intro m
    simp [userUIDs]
  | cons rb rbs ih =>
    intro m
    rw [List.foldl_cons, ih]
    rw [show (processBinding rb m) = rb.Subjects.foldl
        (fun m s =>
          if s.Kind = models.UserKind then
            userInsert m s.UID rb.Namespace ⟨rb.RoleRef.Name, rb.RoleRef.Namespace⟩
          else m) m from rfl]
    rw [mem_keysOf_subjFold]
    have hsplit : u ∈ userUIDs (rb :: rbs) ↔
        u ∈ ((rb.Subjects.filter fun s => s.Kind == models.UserKind).map fun s => s.UID) ∨
          u ∈ userUIDs rbs := by
      simp only [userUIDs, List.flatMap_cons, List.mem_append]
    rw [hsplit]
    exact or_assoc

theorem mem_keysOf_buildUserRoleMap (rbs : List models.RoleBinding) (u : String) :
    u ∈ keysOf (buildUserRoleMap rbs) ↔ u ∈ userUIDs rbs := by
  have h := mem_keysOf_foldBindings u rbs []
  simpa [buildUserRoleMap, keysOf] using h

theorem mem_nsKeysOf_userInsert (m : UserMap) (uid ns : String) (ref : roleRef)
    (u n : String) :
    n ∈ nsKeysOf (userInsert m uid ns ref) u ↔
      n ∈ nsKeysOf m u ∨ (u = uid ∧ n = ns) := by
  rw [nsKeysOf_userInsert]
  by_cases h1 : u = uid
  · rw [if_pos h1]
    subst h1
    by_cases h2 : ns ∈ nsKeysOf m u
    · rw [if_pos h2]
      exact ⟨Or.inl, fun hc => hc.elim id fun he => he.2 ▸ h2⟩
    · rw [if_neg h2]
      simp [List.mem_append]
  · rw [if_neg h1]
    simp [h1]

theorem mem_nsKeysOf_subjFold (rb : models.RoleBinding) (u n : String) :
    ∀ (ss : List models.Subject) (m : UserMap),
      n ∈ nsKeysOf
        (ss.foldl
          (fun m s =>
            if s.Kind = models.UserKind then
              userInsert m s.UID rb.Namespace ⟨rb.RoleRef.Name, rb.RoleRef.Namespace⟩
            else m)
          m) u ↔
      n ∈ nsKeysOf m u ∨
        (u ∈ ((ss.filter fun s => s.Kind == models.UserKind).map fun s => s.UID) ∧
          n = rb.Namespace) := by
  intro ss
  induction ss with
  | nil =>
    intro m
    simp
  | cons s ss ih =>
    intro m
    rw [List.foldl_cons, ih]
    by_cases hk : s.Kind = models.UserKind
    · rw [if_pos hk]
      simp [mem_nsKeysOf_userInsert, List.filter_cons, hk]
      tauto
    · rw [if_neg hk]
      simp [List.filter_cons, hk]

theorem any_iff_memMap (ss : List models.Subject) (u : String) :
    (ss.any fun s => s.Kind == models.UserKind && s.UID == u) = true ↔
      u ∈ (ss.filter fun s => s.Kind == models.UserKind).map fun s => s.UID := by
  simp only [List.any_eq_true, List.mem_map, List.mem_filter, Bool.and_eq_true, beq_iff_eq]
  constructor
  · rintro ⟨sj, hs, hk, hu⟩
    exact ⟨sj, ⟨hs, hk⟩, hu⟩
  · rintro ⟨sj, ⟨hs, hk⟩, hu⟩
    exact ⟨sj, hs, hk, hu⟩

theorem mem_nsKeysOf_foldBindings (u n : String) :
    ∀ (rbs : List models.RoleBinding) (m : UserMap),
      n ∈ nsKeysOf (rbs.foldl (fun m rb => processBinding rb m) m) u ↔
        n ∈ nsKeysOf m u ∨ n ∈ nsListFor rbs u := by
  intro rbs
  induction rbs with
  | nil =>
    intro m
    simp [nsListFor]
  | cons rb rbs ih =>
    intro m
    rw [List.foldl_cons, ih]
    rw [show (processBinding rb m) = rb.Subjects.foldl
        (fun m s =>
          if s.Kind = models.UserKind then
            userInsert m s.UID rb.Namespace ⟨rb.RoleRef.Name, rb.RoleRef.Namespace⟩
          else m) m from rfl]
    rw [mem_nsKeysOf_subjFold]
    have hsplit : n ∈ nsListFor (rb :: rbs) u ↔
        ((rb.Subjects.any fun s => s.Kind == models.UserKind && s.UID == u) = true ∧
          n = rb.Namespace) ∨ n ∈ nsListFor rbs u := by
      simp only [nsListFor, List.flatMap_cons, List.mem_append]
      by_cases hany : (rb.Subjects.any fun s => s.Kind == models.UserKind && s.UID == u) = true
      · simp [hany]
      · simp [hany]
    rw [hsplit, ← any_iff_memMap]
    tauto

theorem mem_nsKeysOf_buildUserRoleMap (rbs : List models.RoleBinding) (u n : String) :
    n ∈ nsKeysOf (buildUserRoleMap rbs) u ↔ n ∈ nsListFor rbs u := by
  have h := mem_nsKeysOf_foldBindings u n rbs []
  simpa [buildUserRoleMap, nsKeysOf, alookup, keysOf] using h

theorem nodup_keysOf_userInsert (m : UserMap) (uid ns : String) (ref : roleRef)
    (h : (keysOf m).Nodup) : (keysOf (userInsert m uid ns ref)).Nodup := by
  rw [keysOf_userInsert]
  by_cases hm : uid ∈ keysOf m
  · rwa [if_pos hm]
  · rw [if_neg hm]
    simp [List.nodup_append, h, hm]

theorem nodup_nsKeysOf_userInsert (m : UserMap) (uid ns : String) (ref : roleRef)
    (h : ∀ u, (nsKeysOf m u).Nodup) :
    ∀ u, (nsKeysOf (userInsert m uid ns ref) u).Nodup := by
  intro u
  rw [nsKeysOf_userInsert]
  by_cases h1 : u = uid
  · rw [if_pos h1]
    by_cases h2 : ns ∈ nsKeysOf m uid
    · rw [if_pos h2]
      exact h uid
    · rw [if_neg h2]
      simp [List.nodup_append, h uid, h2]
  · rw [if_neg h1]
    exact h u

theorem inv_subjFold (rb : models.RoleBinding) :
    ∀ (ss : List models.Subject) (m : UserMap),
      (keysOf m).Nodup → (∀ u, (nsKeysOf m u).Nodup) →
      (keysOf
        (ss.foldl
          (fun m s =>
            if s.Kind = models.UserKind then
              userInsert m s.UID rb.Namespace ⟨rb.RoleRef.Name, rb.RoleRef.Namespace⟩
            else m)
          m)).Nodup ∧
      (∀ u, (nsKeysOf
        (ss.foldl
          (fun m s =>
            if s.Kind = models.UserKind then
              userInsert m s.UID rb.Namespace ⟨rb.RoleRef.Name, rb.RoleRef.Namespace⟩
            else m)
          m) u).Nodup) := by
  intro ss
  induction ss with
  | nil =>
    intro m h1 h2
    exact ⟨h1, h2⟩
  | cons s ss ih =>
    intro m h1 h2
    rw [List.foldl_cons]
    by_cases hk : s.Kind = models.UserKind
    · rw [if_pos hk]
      exact ih _ (nodup_keysOf_userInsert _ _ _ _ h1) (nodup_nsKeysOf_userInsert _ _ _ _ h2)
    · rw [if_neg hk]
      exact ih m h1 h2

theorem inv_buildUserRoleMap (rbs : List models.RoleBinding) :
    (keysOf (buildUserRoleMap rbs)).Nodup ∧
      ∀ u, (nsKeysOf (buildUserRoleMap rbs) u).Nodup := by
  have main : ∀ (rbs : List models.RoleBinding) (m : UserMap),
      (keysOf m).Nodup → (∀ u, (nsKeysOf m u).Nodup) →
      (keysOf (rbs.foldl (fun m rb => processBinding rb m) m)).Nodup ∧
        ∀ u, (nsKeysOf (rbs.foldl (fun m rb => processBinding rb m) m) u).Nodup := by
    intro rbs
    induction rbs with
    | nil =>
      intro m h1 h2
      exact ⟨h1, h2⟩
    | cons rb rbs ih =>
      intro m h1 h2
      rw [List.foldl_cons]
      obtain ⟨g1, g2⟩ := inv_subjFold rb rb.Subjects m h1 h2
      exact ih _ g1 g2
  have h := main rbs [] (by simp [keysOf]) (by intro u; simp [nsKeysOf, alookup, keysOf])
  simpa [buildUserRoleMap] using h

/-- An association list with duplicate-free keys is its key list with the
lookups of those keys. -/
theorem map_eq_keysOf_map {β γ : Type} (d : β) (f : String → β → γ) :
    ∀ (m : List (String × β)), (keysOf m).Nodup →
      m.map (fun e => f e.1 e.2) = (keysOf m).map fun k => f k ((alookup m k).getD d) := by
  intro m
  induction m with
  | nil =>
    intro _
    rfl
  | cons hd tl ih =>
    intro hn
    obtain ⟨k, v⟩ := hd
    rw [keysOf_cons] at hn
    have hk : k ∉ keysOf tl := (List.nodup_cons.mp hn).1
    have hn' : (keysOf tl).Nodup := (List.nodup_cons.mp hn).2
    rw [List.map_cons, keysOf_cons, List.map_cons]
    congr 1
    · simp [alookup]
    · rw [ih hn']
      apply List.map_congr_left
      intro k' hk'
      have hne : k ≠ k' := fun he => hk (he ▸ hk')
      simp [alookup, hne]

/-- Key fact for C3 (bindings side): the compiled role bindings are
invariant under permutation of the input binding list. -/
theorem generateOPARoleBindings_perm_eq {rbs₁ rbs₂ : List models.RoleBinding}
    (hp : rbs₁.Perm rbs₂) :
    generateOPARoleBindings rbs₁ = generateOPARoleBindings rbs₂ := by
  obtain ⟨hk₁, hns₁⟩ := inv_buildUserRoleMap rbs₁
  obtain ⟨hk₂, hns₂⟩ := inv_buildUserRoleMap rbs₂
  have hdesc : ∀ (rbs : List models.RoleBinding),
      (keysOf (buildUserRoleMap rbs)).Nodup →
      (∀ u, (nsKeysOf (buildUserRoleMap rbs) u).Nodup) →
      ((buildUserRoleMap rbs).map fun e =>
        (⟨e.1, sortBindings (e.2.map fun i => ⟨i.1, sortRoleRefs i.2⟩)⟩ : roleBinding)) =
        (keysOf (buildUserRoleMap rbs)).map fun u =>
          (⟨u, sortBindings ((nsKeysOf (buildUserRoleMap rbs) u).map fun n =>
            ⟨n, sortRoleRefs (refsFor rbs u n)⟩)⟩ : roleBinding) := by
    intro rbs hk hns
    rw [map_eq_keysOf_map ([] : NsMap)
      (fun u nm => (⟨u, sortBindings (nm.map fun i => ⟨i.1, sortRoleRefs i.2⟩)⟩ : roleBinding))
      _ hk]
    apply List.map_congr_left
    intro u _
    have hinner :
        (((alookup (buildUserRoleMap rbs) u).getD []).map fun i =>
          (⟨i.1, sortRoleRefs i.2⟩ : binding)) =
        (nsKeysOf (buildUserRoleMap rbs) u).map fun n =>
          (⟨n, sortRoleRefs (refsFor rbs u n)⟩ : binding) := by
      rw [map_eq_keysOf_map ([] : List roleRef)
        (fun n refs => (⟨n, sortRoleRefs refs⟩ : binding)) _ (hns u)]
      apply List.map_congr_left
      intro n _
      exact congrArg (fun l => binding.mk n (sortRoleRefs l))
        (lookupRefs_buildUserRoleMap rbs u n)
    rw [hinner]
  have h₁ := hdesc rbs₁ hk₁ hns₁
  have h₂ := hdesc rbs₂ hk₂ hns₂
  have hkperm : (keysOf (buildUserRoleMap rbs₁)).Perm (keysOf (buildUserRoleMap rbs₂)) := by
    refine (List.perm_ext_iff_of_nodup hk₁ hk₂).mpr fun u => ?_
    rw [mem_keysOf_buildUserRoleMap, mem_keysOf_buildUserRoleMap]
    exact (hp.flatMap_right _).mem_iff
  have hGeq : ∀ u,
      (⟨u, sortBindings ((nsKeysOf (buildUserRoleMap rbs₁) u).map fun n =>
        ⟨n, sortRoleRefs (refsFor rbs₁ u n)⟩)⟩ : roleBinding) =
      (⟨u, sortBindings ((nsKeysOf (buildUserRoleMap rbs₂) u).map fun n =>
        ⟨n, sortRoleRefs (refsFor rbs₂ u n)⟩)⟩ : roleBinding) := by
    intro u
    have hpayload : ∀ n, sortRoleRefs (refsFor rbs₁ u n) = sortRoleRefs (refsFor rbs₂ u n) :=
      fun n => sort_eq_of_perm roleRefLE (hp.flatMap_right _)
    have hnsperm : (nsKeysOf (buildUserRoleMap rbs₁) u).Perm
        (nsKeysOf (buildUserRoleMap rbs₂) u) := by
      refine (List.perm_ext_iff_of_nodup (hns₁ u) (hns₂ u)).mpr fun n => ?_
      rw [mem_nsKeysOf_buildUserRoleMap, mem_nsKeysOf_buildUserRoleMap]
      exact (hp.flatMap_right _).mem_iff
    have hmapeq : ((nsKeysOf (buildUserRoleMap rbs₁) u).map fun n =>
        (⟨n, sortRoleRefs (refsFor rbs₁ u n)⟩ : binding)) =
        ((nsKeysOf (buildUserRoleMap rbs₁) u).map fun n =>
          (⟨n, sortRoleRefs (refsFor rbs₂ u n)⟩ : binding)) :=
      List.map_congr_left fun n _ => by rw [hpayload n]
    have hsort : sortBindings ((nsKeysOf (buildUserRoleMap rbs₁) u).map fun n =>
        (⟨n, sortRoleRefs (refsFor rbs₂ u n)⟩ : binding)) =
        sortBindings ((nsKeysOf (buildUserRoleMap rbs₂) u).map fun n =>
          (⟨n, sortRoleRefs (refsFor rbs₂ u n)⟩ : binding)) := by
      apply sort_eq_of_perm_of_nodup_keys bindingLE (fun b : binding => b.Namespace) strLt
        (fun x y hxy hyx => strLt_asymm hxy hyx)
        (fun a b hab hne => strLt_of_strLe_of_ne hab hne)
        (hnsperm.map _)
      simpa [List.map_map, Function.comp_def] using hns₁ u
    rw [show sortBindings ((nsKeysOf (buildUserRoleMap rbs₁) u).map fun n =>
        (⟨n, sortRoleRefs (refsFor rbs₁ u n)⟩ : binding)) =
        sortBindings ((nsKeysOf (buildUserRoleMap rbs₂) u).map fun n =>
          (⟨n, sortRoleRefs (refsFor rbs₂ u n)⟩ : binding)) from by rw [hmapeq, hsort]]
  unfold generateOPARoleBindings
  rw [h₁, h₂]
  rw [List.map_congr_left fun u _ => hGeq u]
  have hfinal : sortRoleBindings ((keysOf (buildUserRoleMap rbs₁)).map fun u =>
      (⟨u, sortBindings ((nsKeysOf (buildUserRoleMap rbs₂) u).map fun n =>
        ⟨n, sortRoleRefs (refsFor rbs₂ u n)⟩)⟩ : roleBinding)) =
      sortRoleBindings ((keysOf (buildUserRoleMap rbs₂)).map fun u =>
        (⟨u, sortBindings ((nsKeysOf (buildUserRoleMap rbs₂) u).map fun n =>
          ⟨n, sortRoleRefs (refsFor rbs₂ u n)⟩)⟩ : roleBinding)) := by
    apply sort_eq_of_perm_of_nodup_keys roleBindingLE (fun rb : roleBinding => rb.UID) strLt
      (fun x y hxy hyx => strLt_asymm hxy hyx)
      (fun a b hab hne => strLt_of_strLe_of_ne hab hne)
      (hkperm.map _)
    simpa [List.map_map, Function.comp_def] using hk₁
  rw [hfinal]

/-! ## Subject filtering facts (for C6) -/

theorem subjFold_no_user (rb : models.RoleBinding) :
    ∀ (ss : List models.Subject) (m : UserMap),
      (∀ s ∈ ss, s.Kind ≠ models.UserKind) →
      ss.foldl
        (fun m s =>
          if s.Kind = models.UserKind then
            userInsert m s.UID rb.Namespace ⟨rb.RoleRef.Name, rb.RoleRef.Namespace⟩
          else m)
        m = m := by
  intro ss
  induction ss with
  | nil =>
    intro m _
    rfl
  | cons s ss ih =>
    intro m h
    rw [List.foldl_cons, if_neg (h s (List.mem_cons_self _ _))]
    exact ih m fun s' hs' => h s' (List.mem_cons_of_mem _ hs')

theorem generateOPARoleBindings_drop_binding (l₁ l₂ : List models.RoleBinding)
    (b : models.RoleBinding) (h : ∀ s ∈ b.Subjects, s.Kind ≠ models.UserKind) :
    generateOPARoleBindings (l₁ ++ b :: l₂) = generateOPARoleBindings (l₁ ++ l₂) := by
  have hbm : buildUserRoleMap (l₁ ++ b :: l₂) = buildUserRoleMap (l₁ ++ l₂) := by
    unfold buildUserRoleMap
    rw [List.foldl_append, List.foldl_append, List.foldl_cons]
    congr 1
    exact subjFold_no_user b b.Subjects _ h
  unfold generateOPARoleBindings
  rw [hbm]

theorem subjFold_filter_user (rb : models.RoleBinding) :
    ∀ (ss : List models.Subject) (m : UserMap),
      (ss.filter fun s => s.Kind == models.UserKind).foldl
        (fun m s =>
          if s.Kind = models.UserKind then
            userInsert m s.UID rb.Namespace ⟨rb.RoleRef.Name, rb.RoleRef.Namespace⟩
          else m)
        m =
      ss.foldl
        (fun m s =>
          if s.Kind = models.UserKind then
            userInsert m s.UID rb.Namespace ⟨rb.RoleRef.Name, rb.RoleRef.Namespace⟩
          else m)
        m := by
  intro ss
  induction ss with
  | nil =>
    intro m
    rfl
  | cons s ss ih =>
    intro m
    rw [List.filter_cons]
    by_cases hk : s.Kind = models.UserKind
    · rw [if_pos (by simp [hk]), List.foldl_cons, List.foldl_cons, ih]
    · rw [if_neg (by simp [hk]), List.foldl_cons, if_neg hk, ih]

theorem processBinding_filter_user (rb : models.RoleBinding) (m : UserMap) :
    processBinding
      { rb with Subjects := rb.Subjects.filter fun s => s.Kind == models.UserKind } m =
    processBinding rb m := by
  show (rb.Subjects.filter fun s => s.Kind == models.UserKind).foldl
      (fun m s =>
        if s.Kind = models.UserKind then
          userInsert m s.UID rb.Namespace ⟨rb.RoleRef.Name, rb.RoleRef.Namespace⟩
        else m)
      m =
    rb.Subjects.foldl
      (fun m s =>
        if s.Kind = models.UserKind then
          userInsert m s.UID rb.Namespace ⟨rb.RoleRef.Name, rb.RoleRef.Namespace⟩
        else m)
      m
  exact subjFold_filter_user rb rb.Subjects m

theorem generateOPARoleBindings_filter_user (rbs : List models.RoleBinding) :
    generateOPARoleBindings (rbs.map fun rb =>
      { rb with Subjects := rb.Subjects.filter fun s => s.Kind == models.UserKind }) =
    generateOPARoleBindings rbs := by
  have hbm : ∀ (rbs : List models.RoleBinding) (m : UserMap),
      (rbs.map fun rb =>
        { rb with Subjects := rb.Subjects.filter fun s =>
          s.Kind == models.UserKind }).foldl (fun m rb => processBinding rb m) m =
      rbs.foldl (fun m rb => processBinding rb m) m := by
    intro rbs
    induction rbs with
    | nil =>
      intro m
      rfl
    | cons rb rbs ih =>
      intro m
      rw [List.map_cons, List.foldl_cons, List.foldl_cons, processBinding_filter_user]
      exact ih _
  unfold generateOPARoleBindings buildUserRoleMap
  rw [hbm]

/-! ## The claims -/

/-- C5: a role whose single rule has kind EndpointKind, resources
`["/api/builds"]` and verbs exactly `["*"]` compiles to exactly the 5
rules pairing `/api/builds` with GET, POST, PUT, PATCH, DELETE - no
duplicates, no other methods - sorted by method. -/
theorem C5_wildcard_expansion :
    (generateOPARoles
        [⟨"viewer", "proj1", [⟨models.KindEndpoint, ["/api/builds"], [models.MethodAll]⟩]⟩]
        []).1 =
      ⟨[⟨"viewer", "proj1",
        [⟨MethodDelete, "/api/builds"⟩, ⟨MethodGet, "/api/builds"⟩,
          ⟨MethodPatch, "/api/builds"⟩, ⟨MethodPost, "/api/builds"⟩,
          ⟨MethodPut, "/api/builds"⟩]⟩]⟩ := by decide

/-- C9: the compile does NOT leave its inputs unchanged.  Evaluating
`generateOPARoles` at a role with a wildcard endpoint-kind rule shows the
stored rule's Verbs list is replaced in place by `AllMethods` (the
`r.Verbs = AllMethods` assignment on line 202 writes through the `[]*Rule`
pointer), contradicting the spec's "read-only inputs" lifecycle. -/
theorem C9_compile_mutates_stored_role :
    (generateOPARoles
        [⟨"viewer", "proj1", [⟨models.KindEndpoint, ["/api/builds"], [models.MethodAll]⟩]⟩]
        []).2 ≠
      [⟨"viewer", "proj1", [⟨models.KindEndpoint, ["/api/builds"], [models.MethodAll]⟩]⟩] ∧
    (generateOPARoles
        [⟨"viewer", "proj1", [⟨models.KindEndpoint, ["/api/builds"], [models.MethodAll]⟩]⟩]
        []).2 =
      [⟨"viewer", "proj1", [⟨models.KindEndpoint, ["/api/builds"], AllMethods⟩]⟩] := by
  decide

/-- C1: a failed compile does NOT leave the previously published
generation as the one observed by `GetRevision`.  `save` replaces the
process-wide `cacheFS` before writing any file, so when the archive step
fails the error is returned to the caller (first half of the claim, which
holds), but `GetRevision` thereafter reports the new, never-published
revision while the serving path still serves the old archive - a mixed
generation is visible to readers. -/
theorem C1_failed_compile_leaks_partial_generation :
    GetRevision ⟨some [(manifestPath, .manifestFile ⟨"old-rev", [""]⟩)],
        some [(manifestPath, .manifestFile ⟨"old-rev", [""]⟩)]⟩ = "old-rev" ∧
    (GenerateOPABundle [] [] [] [] [] [] "pkg" "new-rev" (fun _ => true) false
        ⟨some [(manifestPath, .manifestFile ⟨"old-rev", [""]⟩)],
         some [(manifestPath, .manifestFile ⟨"old-rev", [""]⟩)]⟩).1 =
      some "Failed to archive tarball" ∧
    GetRevision (GenerateOPABundle [] [] [] [] [] [] "pkg" "new-rev" (fun _ => true) false
        ⟨some [(manifestPath, .manifestFile ⟨"old-rev", [""]⟩)],
         some [(manifestPath, .manifestFile ⟨"old-rev", [""]⟩)]⟩).2 = "new-rev" ∧
    (GenerateOPABundle [] [] [] [] [] [] "pkg" "new-rev" (fun _ => true) false
        ⟨some [(manifestPath, .manifestFile ⟨"old-rev", [""]⟩)],
         some [(manifestPath, .manifestFile ⟨"old-rev", [""]⟩)]⟩).2.tarball =
      some [(manifestPath, .manifestFile ⟨"old-rev", [""]⟩)] := by
  decide

/-- C8: `GetRevision` is total (it returns a `String`, never an error) and
fails soft: a missing manifest file, or manifest content that is not a
marshalled manifest (the rego source, say), yields the empty string.
(A nil `cacheFS` - possible only before the very first compile, which the
service runs before serving - is outside the claim's two named failure
cases and is modelled as a read failure.) -/
theorem C8_getrevision_fails_soft (st : BundleState) :
    (∀ fs, st.cacheFS = some fs → readFile? fs manifestPath = none →
      GetRevision st = "") ∧
    (∀ fs c, st.cacheFS = some fs → readFile? fs manifestPath = some c →
      (∀ m, c ≠ .manifestFile m) → GetRevision st = "") := by
  refine ⟨?_, ?_⟩
  · intro fs h hr
    unfold GetRevision
    simp only [h, hr]
  · intro fs c h hr hc
    unfold GetRevision
    rw [h]
    cases c with
    | manifestFile m => exact absurd rfl (hc m)
    | bytesFile s => simp only [hr]
    | rolesFile d => simp only [hr]
    | bindingsFile d => simp only [hr]
    | exemptionsFile d => simp only [hr]

theorem C8_witness :
    GetRevision ⟨some [], none⟩ = "" ∧
    GetRevision ⟨some [(manifestPath, .bytesFile "package rbac")], none⟩ = "" :=
  ⟨(C8_getrevision_fails_soft ⟨some [], none⟩).1 [] rfl rfl,
   (C8_getrevision_fails_soft ⟨some [(manifestPath, .bytesFile "package rbac")], none⟩).2
     [(manifestPath, .bytesFile "package rbac")] (.bytesFile "package rbac") rfl (by decide)
     (fun m h => FileContent.noConfusion h)⟩

/-- C7 as stated is false when the published generation carries no
readable manifest (e.g. the fresh fs a failed save leaves behind): the
revision is then `""`, and a request whose `If-None-Match` is also `""`
(equal to the current revision) is answered 200 without an Etag, not 304
(the handler requires a nonempty revision before comparing). -/
theorem C7_counterexample :
    GetRevision ⟨some [], none⟩ = "" ∧
    DownloadBundle ⟨some [], none⟩ "" = ⟨200, some "application/gzip", none, true⟩ := by
  decide

/-- C7 (amended): provided the published revision is nonempty, a request
with `If-None-Match` equal to it gets 304 with no body, and any other
`If-None-Match` gets 200 with `Etag` equal to the revision and the
archive streamed. -/
theorem C7_conditional_get (st : BundleState) (m : String)
    (hrev : GetRevision st ≠ "") :
    (m = GetRevision st → DownloadBundle st m = ⟨304, none, none, false⟩) ∧
    (m ≠ GetRevision st →
      (DownloadBundle st m).status = 200 ∧
        (DownloadBundle st m).etag = some (GetRevision st) ∧
        (DownloadBundle st m).bodyServed = true) := by
  constructor
  · intro he
    unfold DownloadBundle
    rw [if_pos ⟨hrev, he.symm⟩]
  · intro hne
    unfold DownloadBundle
    rw [if_neg fun hc => hne hc.2.symm]
    simp [hrev]

theorem C7_witness :
    DownloadBundle ⟨some [(manifestPath, .manifestFile ⟨"abc", [""]⟩)], none⟩ "abc" =
      ⟨304, none, none, false⟩ ∧
    (DownloadBundle ⟨some [(manifestPath, .manifestFile ⟨"abc", [""]⟩)], none⟩ "xyz").status
        = 200 ∧
    (DownloadBundle ⟨some [(manifestPath, .manifestFile ⟨"abc", [""]⟩)], none⟩ "xyz").etag
        = some (GetRevision ⟨some [(manifestPath, .manifestFile ⟨"abc", [""]⟩)], none⟩) := by
  have h1 := C7_conditional_get
    ⟨some [(manifestPath, .manifestFile ⟨"abc", [""]⟩)], none⟩ "abc" (by decide)
  have h2 := C7_conditional_get
    ⟨some [(manifestPath, .manifestFile ⟨"abc", [""]⟩)], none⟩ "xyz" (by decide)
  exact ⟨h1.1 (by decide), (h2.2 (by decide)).1, (h2.2 (by decide)).2.1⟩

/-- C4 as stated is false: the compiler never deduplicates.  A role whose
rules repeat the same endpoint-kind grant compiles to a rule list with two
equal `(method, endpoint)` pairs. -/
theorem C4_counterexample :
    ¬ ((∀ ro ∈ (generateOPARoles
          [⟨"n", "ns", [⟨models.KindEndpoint, ["/a"], ["GET"]⟩,
                        ⟨models.KindEndpoint, ["/a"], ["GET"]⟩]⟩] []).1.Roles,
        List.Sorted ruleLE ro.Rules ∧ ro.Rules.Nodup) ∧
      List.Sorted roleLE (generateOPARoles
          [⟨"n", "ns", [⟨models.KindEndpoint, ["/a"], ["GET"]⟩,
                        ⟨models.KindEndpoint, ["/a"], ["GET"]⟩]⟩] []).1.Roles) := by
  decide

/-- C4 (amended): each compiled role's rule list is sorted by (endpoint,
then method), and the roles are globally sorted by (namespace, then name);
duplicate `(method, endpoint)` pairs are NOT removed. -/
theorem C4_compiled_roles_sorted (rs : List models.Role) (ps : List models.Policy) :
    (∀ ro ∈ (generateOPARoles rs ps).1.Roles, List.Sorted ruleLE ro.Rules) ∧
      List.Sorted roleLE (generateOPARoles rs ps).1.Roles := by
  constructor
  · intro ro hro
    have hro' : ro ∈ (rs.map (compileRole ps)).insertionSort roleLE := hro
    obtain ⟨ro₀, _, rfl⟩ := List.mem_map.mp ((List.mem_insertionSort _).mp hro')
    exact List.sorted_insertionSort _ _
  · exact List.sorted_insertionSort _ _

theorem C4_witness :
    List.Sorted ruleLE
      (⟨"viewer", "proj1",
        [⟨MethodDelete, "/api/builds"⟩, ⟨MethodGet, "/api/builds"⟩,
          ⟨MethodPatch, "/api/builds"⟩, ⟨MethodPost, "/api/builds"⟩,
          ⟨MethodPut, "/api/builds"⟩]⟩ : role).Rules ∧
    List.Sorted roleLE (generateOPARoles
      [⟨"viewer", "proj1", [⟨models.KindEndpoint, ["/api/builds"], [models.MethodAll]⟩]⟩]
      []).1.Roles :=
  ⟨(C4_compiled_roles_sorted
      [⟨"viewer", "proj1", [⟨models.KindEndpoint, ["/api/builds"], [models.MethodAll]⟩]⟩]
      []).1 _ (by decide),
   (C4_compiled_roles_sorted
      [⟨"viewer", "proj1", [⟨models.KindEndpoint, ["/api/builds"], [models.MethodAll]⟩]⟩]
      []).2⟩

/-- C2: the Registered list contains every produced Public entry, every
produced Privileged entry, and every pair known to the rule-expansion
table.  The static tables are parameters (they are not under `src/`); per
the spec (§4.4, "Registered: the union of Public, Privileged, and every
mapped pair") the `adminURLs` table is assumed to cover the public and
system-admin entries, which is what the code relies on since Registered is
assembled from the table pairs and `adminURLs` only. -/
theorem C2_registered_superset (ps : List models.Policy)
    (pubs syss admins : List urlRule)
    (hpub : ∀ r ∈ pubs.flatMap expandURLRule, r ∈ admins.flatMap expandURLRule)
    (hsys : ∀ r ∈ syss.flatMap expandURLRule, r ∈ admins.flatMap expandURLRule) :
    (∀ r ∈ (generateOPAExemptionURLs pubs syss admins ps).Public,
      r ∈ (generateOPAExemptionURLs pubs syss admins ps).Registered) ∧
    (∀ r ∈ (generateOPAExemptionURLs pubs syss admins ps).Privileged,
      r ∈ (generateOPAExemptionURLs pubs syss admins ps).Registered) ∧
    (∀ r ∈ allTablePairs ps,
      r ∈ (generateOPAExemptionURLs pubs syss admins ps).Registered) := by
  refine ⟨?_, ?_, ?_⟩
  · intro r hr
    have hr' : r ∈ (pubs.flatMap expandURLRule).insertionSort ruleLE := hr
    have hmem : r ∈ pubs.flatMap expandURLRule := (List.mem_insertionSort _).mp hr'
    show r ∈ (allTablePairs ps ++ admins.flatMap expandURLRule).insertionSort ruleLE
    rw [List.mem_insertionSort]
    exact List.mem_append.mpr (Or.inr (hpub r hmem))
  · intro r hr
    have hr' : r ∈ (syss.flatMap expandURLRule).insertionSort ruleLE := hr
    have hmem : r ∈ syss.flatMap expandURLRule := (List.mem_insertionSort _).mp hr'
    show r ∈ (allTablePairs ps ++ admins.flatMap expandURLRule).insertionSort ruleLE
    rw [List.mem_insertionSort]
    exact List.mem_append.mpr (Or.inr (hsys r hmem))
  · intro r hr
    show r ∈ (allTablePairs ps ++ admins.flatMap expandURLRule).insertionSort ruleLE
    rw [List.mem_insertionSort]
    exact List.mem_append.mpr (Or.inl hr)

theorem C2_witness :
    (∀ r ∈ (generateOPAExemptionURLs [⟨["GET"], ["/public"]⟩] [⟨["POST"], ["/sys"]⟩]
        [⟨["GET"], ["/public"]⟩, ⟨["POST"], ["/sys"]⟩]
        [⟨"workflow", [⟨"get", ["/api/wf"]⟩]⟩]).Public,
      r ∈ (generateOPAExemptionURLs [⟨["GET"], ["/public"]⟩] [⟨["POST"], ["/sys"]⟩]
        [⟨["GET"], ["/public"]⟩, ⟨["POST"], ["/sys"]⟩]
        [⟨"workflow", [⟨"get", ["/api/wf"]⟩]⟩]).Registered) ∧
    (∀ r ∈ (generateOPAExemptionURLs [⟨["GET"], ["/public"]⟩] [⟨["POST"], ["/sys"]⟩]
        [⟨["GET"], ["/public"]⟩, ⟨["POST"], ["/sys"]⟩]
        [⟨"workflow", [⟨"get", ["/api/wf"]⟩]⟩]).Privileged,
      r ∈ (generateOPAExemptionURLs [⟨["GET"], ["/public"]⟩] [⟨["POST"], ["/sys"]⟩]
        [⟨["GET"], ["/public"]⟩, ⟨["POST"], ["/sys"]⟩]
        [⟨"workflow", [⟨"get", ["/api/wf"]⟩]⟩]).Registered) ∧
    (∀ r ∈ allTablePairs [⟨"workflow", [⟨"get", ["/api/wf"]⟩]⟩],
      r ∈ (generateOPAExemptionURLs [⟨["GET"], ["/public"]⟩] [⟨["POST"], ["/sys"]⟩]
        [⟨["GET"], ["/public"]⟩, ⟨["POST"], ["/sys"]⟩]
        [⟨"workflow", [⟨"get", ["/api/wf"]⟩]⟩]).Registered) :=
  C2_registered_superset [⟨"workflow", [⟨"get", ["/api/wf"]⟩]⟩]
    [⟨["GET"], ["/public"]⟩] [⟨["POST"], ["/sys"]⟩]
    [⟨["GET"], ["/public"]⟩, ⟨["POST"], ["/sys"]⟩] (by decide) (by decide)

/-- C6: a binding all of whose subjects are non-User contributes no entry
at all (removing it leaves the compiled output unchanged), and non-User
subjects never contribute (filtering every binding's subject list down to
its User subjects leaves the compiled output unchanged, so a mixed
binding's entry holds exactly its User-derived grants). -/
theorem C6_subject_filtering (l₁ l₂ : List models.RoleBinding)
    (b : models.RoleBinding) (hb : ∀ s ∈ b.Subjects, s.Kind ≠ models.UserKind)
    (rbs : List models.RoleBinding) :
    generateOPARoleBindings (l₁ ++ b :: l₂) = generateOPARoleBindings (l₁ ++ l₂) ∧
    generateOPARoleBindings (rbs.map fun rb =>
      { rb with Subjects := rb.Subjects.filter fun s => s.Kind == models.UserKind }) =
      generateOPARoleBindings rbs :=
  ⟨generateOPARoleBindings_drop_binding l₁ l₂ b hb,
   generateOPARoleBindings_filter_user rbs⟩

theorem C6_witness :
    generateOPARoleBindings
        ([] ++ (⟨"proj1", [⟨"group", "g1"⟩], ⟨"viewer", "proj1"⟩⟩ : models.RoleBinding) ::
          [⟨"proj2", [⟨models.UserKind, "u1"⟩], ⟨"admin", "proj2"⟩⟩]) =
      generateOPARoleBindings
        ([] ++ [⟨"proj2", [⟨models.UserKind, "u1"⟩], ⟨"admin", "proj2"⟩⟩]) ∧
    generateOPARoleBindings
        ([(⟨"proj1", [⟨models.UserKind, "u1"⟩, ⟨"group", "g1"⟩],
            ⟨"viewer", "proj1"⟩⟩ : models.RoleBinding)].map fun rb =>
          { rb with Subjects := rb.Subjects.filter fun s =>
              s.Kind == models.UserKind }) =
      generateOPARoleBindings
        [⟨"proj1", [⟨models.UserKind, "u1"⟩, ⟨"group", "g1"⟩], ⟨"viewer", "proj1"⟩⟩] :=
  C6_subject_filtering []
    [⟨"proj2", [⟨models.UserKind, "u1"⟩], ⟨"admin", "proj2"⟩⟩]
    ⟨"proj1", [⟨"group", "g1"⟩], ⟨"viewer", "proj1"⟩⟩ (by decide)
    [⟨"proj1", [⟨models.UserKind, "u1"⟩, ⟨"group", "g1"⟩], ⟨"viewer", "proj1"⟩⟩]

/-- C10: wildcard expansion triggers only when the verb/method list is
EXACTLY `["*"]`.  For any other list - including one that contains `"*"`
alongside other entries - no expansion occurs: `generateOPARoles` emits
the literal verbs (so a literal `"*"` method appears in the output), and
`generateOPAExemptionURLs` emits the literal methods. -/
theorem C10_no_expansion_unless_exact (vs resources : List String)
    (name nspace : String) (hv : vs ≠ [models.MethodAll]) :
    (generateOPARoles [⟨name, nspace, [⟨models.KindEndpoint, resources, vs⟩]⟩] []).1 =
      ⟨[⟨name, nspace, sortRules (vs.flatMap fun v => resources.map fun e => ⟨v, e⟩)⟩]⟩ ∧
    (generateOPAExemptionURLs [⟨vs, resources⟩] [] [] []).Public =
      sortRules (vs.flatMap fun v => resources.map fun e => ⟨v, e⟩) := by
  have hkind : ¬ (models.KindEndpoint = models.KindResource) := by decide
  constructor
  · simp only [generateOPARoles, compileRole, processRule, List.map_cons, List.map_nil,
      List.flatMap_cons, List.flatMap_nil, List.append_nil, if_neg hkind, if_neg hv,
      sortRoles, List.insertionSort, List.orderedInsert]
  · simp only [generateOPAExemptionURLs, expandURLRule, List.flatMap_cons,
      List.flatMap_nil, List.append_nil, if_neg hv]

theorem C10_witness :
    (generateOPARoles
        [⟨"n", "ns", [⟨models.KindEndpoint, ["/a"], ["*", "GET"]⟩]⟩] []).1 =
      ⟨[⟨"n", "ns", sortRules ((["*", "GET"] : List String).flatMap fun v =>
        (["/a"] : List String).map fun e => ⟨v, e⟩)⟩]⟩ ∧
    (generateOPAExemptionURLs [⟨["*", "GET"], ["/a"]⟩] [] [] []).Public =
      sortRules ((["*", "GET"] : List String).flatMap fun v =>
        (["/a"] : List String).map fun e => ⟨v, e⟩) :=
  C10_no_expansion_unless_exact ["*", "GET"] ["/a"] "n" "ns" (by decide)

/-- C3 as stated is false: with two distinct stored roles sharing the same
(namespace, name) - which the store forbids but nothing in the compiler
checks - swapping them changes the serialized bytes, because the sort
ties on the (namespace, name) key and keeps input order. -/
theorem C3_counterexample :
    ([⟨"n", "ns", [⟨models.KindEndpoint, ["/a"], ["GET"]⟩]⟩, ⟨"n", "ns", []⟩]
        : List models.Role).Perm
      [⟨"n", "ns", []⟩, ⟨"n", "ns", [⟨models.KindEndpoint, ["/a"], ["GET"]⟩]⟩] ∧
    serializeOpaRoles (generateOPARoles
        [⟨"n", "ns", [⟨models.KindEndpoint, ["/a"], ["GET"]⟩]⟩, ⟨"n", "ns", []⟩] []).1 ≠
      serializeOpaRoles (generateOPARoles
        [⟨"n", "ns", []⟩, ⟨"n", "ns", [⟨models.KindEndpoint, ["/a"], ["GET"]⟩]⟩] []).1 := by
  decide

/-- C3 (amended): for role lists whose (namespace, name) keys are pairwise
distinct - the store invariant - any permutation of the role, binding and
policy lists yields byte-identical serialized outputs from all three
compilers. -/
theorem C3_permutation_invariance (rs₁ rs₂ : List models.Role)
    (rbs₁ rbs₂ : List models.RoleBinding) (ps₁ ps₂ : List models.Policy)
    (pubs syss admins : List urlRule)
    (hr : rs₁.Perm rs₂) (hb : rbs₁.Perm rbs₂) (hps : ps₁.Perm ps₂)
    (hn : (rs₁.map fun ro => (ro.Namespace, ro.Name)).Nodup) :
    serializeOpaRoles (generateOPARoles rs₁ ps₁).1 =
        serializeOpaRoles (generateOPARoles rs₂ ps₂).1 ∧
      serializeOpaRoleBindings (generateOPARoleBindings rbs₁) =
        serializeOpaRoleBindings (generateOPARoleBindings rbs₂) ∧
      serializeExemptionURLs (generateOPAExemptionURLs pubs syss admins ps₁) =
        serializeExemptionURLs (generateOPAExemptionURLs pubs syss admins ps₂) :=
  ⟨congrArg serializeOpaRoles (generateOPARoles_fst_eq hr hps hn),
   congrArg serializeOpaRoleBindings (generateOPARoleBindings_perm_eq hb),
   congrArg serializeExemptionURLs
     (generateOPAExemptionURLs_policies_perm hps pubs syss admins)⟩

theorem C3_witness :
    serializeOpaRoles (generateOPARoles
        [⟨"a", "ns", []⟩, ⟨"b", "ns", [⟨models.KindEndpoint, ["/a"], ["GET"]⟩]⟩]
        [⟨"res", [⟨"get", ["/r"]⟩]⟩, ⟨"res2", [⟨"put", ["/s"]⟩]⟩]).1 =
      serializeOpaRoles (generateOPARoles
        [⟨"b", "ns", [⟨models.KindEndpoint, ["/a"], ["GET"]⟩]⟩, ⟨"a", "ns", []⟩]
        [⟨"res2", [⟨"put", ["/s"]⟩]⟩, ⟨"res", [⟨"get", ["/r"]⟩]⟩]).1 ∧
    serializeOpaRoleBindings (generateOPARoleBindings
        [⟨"p1", [⟨models.UserKind, "u1"⟩], ⟨"viewer", "p1"⟩⟩,
         ⟨"p2", [⟨models.UserKind, "u2"⟩], ⟨"admin", "p2"⟩⟩]) =
      serializeOpaRoleBindings (generateOPARoleBindings
        [⟨"p2", [⟨models.UserKind, "u2"⟩], ⟨"admin", "p2"⟩⟩,
         ⟨"p1", [⟨models.UserKind, "u1"⟩], ⟨"viewer", "p1"⟩⟩]) ∧
    serializeExemptionURLs (generateOPAExemptionURLs [] [] []
        [⟨"res", [⟨"get", ["/r"]⟩]⟩, ⟨"res2", [⟨"put", ["/s"]⟩]⟩]) =
      serializeExemptionURLs (generateOPAExemptionURLs [] [] []
        [⟨"res2", [⟨"put", ["/s"]⟩]⟩, ⟨"res", [⟨"get", ["/r"]⟩]⟩]) :=
  C3_permutation_invariance
    [⟨"a", "ns", []⟩, ⟨"b", "ns", [⟨models.KindEndpoint, ["/a"], ["GET"]⟩]⟩]
    [⟨"b", "ns", [⟨models.KindEndpoint, ["/a"], ["GET"]⟩]⟩, ⟨"a", "ns", []⟩]
    [⟨"p1", [⟨models.UserKind, "u1"⟩], ⟨"viewer", "p1"⟩⟩,
     ⟨"p2", [⟨models.UserKind, "u2"⟩], ⟨"admin", "p2"⟩⟩]
    [⟨"p2", [⟨models.UserKind, "u2"⟩], ⟨"admin", "p2"⟩⟩,
     ⟨"p1", [⟨models.UserKind, "u1"⟩], ⟨"viewer", "p1"⟩⟩]
    [⟨"res", [⟨"get", ["/r"]⟩]⟩, ⟨"res2", [⟨"put", ["/s"]⟩]⟩]
    [⟨"res2", [⟨"put", ["/s"]⟩]⟩, ⟨"res", [⟨"get", ["/r"]⟩]⟩]
    [] [] [] (by decide) (by decide) (by decide) (by decide)

end ZadigBundle
